import Mathlib

/-!
# Verification of the bedrock-core schema engine
  (`src/services/api/src/utils/schema.js`)

A shallow embedding of the schema compiler, validation-schema derivation,
search-query builder, scope-aware serializer and soft-delete layer of
`schema.js`, together with theorems checking the natural-language design
document against the code.

JavaScript values are embedded as the mutual inductive family
`JSVal`/`JSArr`/`JSObj`: a JS object is an ordered association list of
key/value pairs (JS objects preserve insertion order and never hold
duplicate keys; the embedding's operations mirror JS object semantics on
any list).  `JSVal.vUndefined` is the JS value `undefined`, so a key that is
present with value `undefined` (observable via the `in` operator) is
distinguished from an absent key.  `vRegexI pat` stands for the JS value
`RegExp(escapeRegExp(pat), 'i')` — a case-insensitive regex matching the
literal text `pat` — the only regex shape `schema.js` builds.  `vMType t`
stands for the mongoose schema-type class named `t` (a JS class, so of
`typeof` `"function"` and truthy), and `vValidator e` for the validator
object produced from a `validate` expression string.
-/

mutual

inductive JSVal where
  | vUndefined : JSVal
  | vNull : JSVal
  | vBool (b : Bool) : JSVal
  | vNum (n : Int) : JSVal
  | vStr (s : String) : JSVal
  | vRegexI (pattern : String) : JSVal
  | vMType (t : String) : JSVal
  | vValidator (expr : String) : JSVal
  | vArr (elems : JSArr) : JSVal
  | vObj (fields : JSObj) : JSVal
  deriving DecidableEq

inductive JSArr where
  | nil : JSArr
  | cons (hd : JSVal) (tl : JSArr) : JSArr
  deriving DecidableEq

inductive JSObj where
  | nil : JSObj
  | cons (key : String) (val : JSVal) (tl : JSObj) : JSObj
  deriving DecidableEq

end

namespace JSObj

/-- JS property read `obj[k]`: first binding of `k`, `undefined` when absent. -/
def get : JSObj → String → JSVal
  | .nil, _ => .vUndefined
  | .cons k v tl, key => if k = key then v else get tl key

/-- The JS `in` operator: is the key present (even with value `undefined`)? -/
def has : JSObj → String → Bool
  | .nil, _ => false
  | .cons k _ tl, key => k = key || has tl key

/-- JS `delete obj[k]`. -/
def del : JSObj → String → JSObj
  | .nil, _ => .nil
  | .cons k v tl, key => if k = key then del tl key else .cons k v (del tl key)

/-- Overwrite the value of an existing key in place (JS assignment to a
present key keeps the key's position). -/
def replace : JSObj → String → JSVal → JSObj
  | .nil, _, _ => .nil
  | .cons k v tl, key, val =>
    .cons k (if k = key then val else v) (replace tl key val)

/-- Append a fresh key at the end (JS assignment to an absent key). -/
def append : JSObj → String → JSVal → JSObj
  | .nil, key, val => .cons key val .nil
  | .cons k v tl, key, val => .cons k v (append tl key val)

/-- JS property write `obj[k] = v` (also the effect of `{...obj, k: v}`):
replace in place when present, append when absent. -/
def set (o : JSObj) (key : String) (val : JSVal) : JSObj :=
  if o.has key then o.replace key val else o.append key val

/-- JS `Object.keys`. -/
def keysList : JSObj → List String
  | .nil => []
  | .cons k _ tl => k :: keysList tl

/-- Fold `Object.assign(target, source)`: assign every entry of `source`
onto `target`, in order. -/
def assign : JSObj → JSObj → JSObj
  | target, .nil => target
  | target, .cons k v tl => assign (target.set k v) tl

end JSObj

namespace JSArr

def toList : JSArr → List JSVal
  | .nil => []
  | .cons hd tl => hd :: toList tl

def ofList : List JSVal → JSArr
  | [] => .nil
  | v :: rest => .cons v (ofList rest)

end JSArr

namespace JSVal

/-- JS truthiness: `undefined`, `null`, `false`, `0`, `''` are falsy;
every object (including empty arrays and objects, regexes, classes) is
truthy. -/
def truthy : JSVal → Bool
  | .vUndefined => false
  | .vNull => false
  | .vBool b => b
  | .vNum n => n ≠ 0
  | .vStr s => s ≠ ""
  | _ => true

/-- JS `typeof`, as a string. `null`, arrays, regexes are `"object"`;
mongoose type classes and validator functions are `"function"`. -/
def typeofStr : JSVal → String
  | .vUndefined => "undefined"
  | .vNull => "object"
  | .vBool _ => "boolean"
  | .vNum _ => "number"
  | .vStr _ => "string"
  | .vRegexI _ => "object"
  | .vMType _ => "function"
  | .vValidator _ => "function"
  | .vArr _ => "object"
  | .vObj _ => "object"

/-- lodash `isPlainObject`: a plain object literal; arrays, regexes,
class instances and primitives are not plain objects. -/
def isPlainObjectJS : JSVal → Bool
  | .vObj _ => true
  | _ => false

/-- JS property read `v[k]` generalized to any value: non-objects have
no (named, non-builtin) properties. -/
def getProp : JSVal → String → JSVal
  | .vObj fields, key => fields.get key
  | _, _ => .vUndefined

end JSVal

open JSVal

/-! ## Serialization filter (`transformField`, `isAllowedField`,
`resolveSchema`; schema.js lines 24–40, 338–353) -/

/-- schema.js `resolveSchema`: `Array.isArray(schema) ? schema[0] : schema`
(`[0]` of an empty array is `undefined`). -/
def resolveSchema : JSVal → JSVal
  | .vArr (.cons hd _) => hd
  | .vArr .nil => .vUndefined
  | s => s

/-- schema.js `isAllowedField(schema, scopes)`:
`const { readScopes = 'all' } = resolveSchema(schema) || {};` then
`'all'` passes, an array passes iff it shares a member with `scopes`,
anything else fails.  Destructuring `readScopes` out of a primitive (or of
`{}` when the resolved schema is falsy) yields `undefined`, hence the
default `'all'`; `getProp` returns `vUndefined` in exactly those cases. -/
def isAllowedField (schema : JSVal) (scopes : List String) : Bool :=
  match (resolveSchema schema).getProp "readScopes" with
  | .vUndefined => true
  | .vStr s => s = "all"
  | .vArr l => scopesIntersect l scopes
  | _ => false
where
  /-- Embeds `readScopes.some((scope) => scopes.includes(scope))`;
  JS `includes` uses `===`, so a non-string member never equals a caller
  scope name. -/
  scopesIntersect : JSArr → List String → Bool
  | .nil, _ => false
  | .cons (.vStr s) tl, scopes => scopes.contains s || scopesIntersect tl scopes
  | .cons _ tl, scopes => scopesIntersect tl scopes

/-- Embeds the JS test `key[0] === '_'`: the first character of the key
is the private prefix `'_'` (an empty key has no first character). -/
def keyIsPrivate (k : String) : Bool :=
  match k.data with
  | [] => false
  | c :: _ => c = '_'

mutual

/-- schema.js `transformField(obj, schema, options)` (lines 24–40), as a
pure function (the JS mutates `obj` in place).  Arrays recurse into every
element against `resolveSchema(schema)`; objects drop every key that has
the private prefix `"_"` or whose schema entry fails `isAllowedField`,
and recurse into a kept value only when `schema[key]` is truthy. -/
def transformField (obj schema : JSVal) (scopes : List String) : JSVal :=
  match obj with
  | .vArr l => .vArr (transformArr l schema scopes)
  | .vObj fields => .vObj (transformObj fields schema scopes)
  | v => v
termination_by structural obj

def transformArr (l : JSArr) (schema : JSVal) (scopes : List String) : JSArr :=
  match l with
  | .nil => .nil
  | .cons hd tl =>
    .cons (transformField hd (resolveSchema schema) scopes)
      (transformArr tl schema scopes)
termination_by structural l

def transformObj (fields : JSObj) (schema : JSVal) (scopes : List String) : JSObj :=
  match fields with
  | .nil => .nil
  | .cons key val tl =>
    if keyIsPrivate key || !isAllowedField (schema.getProp key) scopes then
      transformObj tl schema scopes
    else if (schema.getProp key).truthy then
      .cons key (transformField val (schema.getProp key) scopes)
        (transformObj tl schema scopes)
    else
      .cons key val (transformObj tl schema scopes)
termination_by structural fields

end

mutual

/-- Redaction invariant for a serialized value against its schema: every
key of every object node the serializer can reach is non-private and
passes `isAllowedField`, where reaching a key's value requires a truthy
schema entry (mirroring the serializer's descent guard) and array
elements are checked against `resolveSchema` of the array's schema. -/
def clean (obj schema : JSVal) (scopes : List String) : Bool :=
  match obj with
  | .vArr l => cleanArr l schema scopes
  | .vObj fields => cleanObj fields schema scopes
  | _ => true
termination_by structural obj

def cleanArr (l : JSArr) (schema : JSVal) (scopes : List String) : Bool :=
  match l with
  | .nil => true
  | .cons hd tl =>
    clean hd (resolveSchema schema) scopes && cleanArr tl schema scopes
termination_by structural l

def cleanObj (fields : JSObj) (schema : JSVal) (scopes : List String) : Bool :=
  match fields with
  | .nil => true
  | .cons key val tl =>
    !keyIsPrivate key && isAllowedField (schema.getProp key) scopes &&
      (!(schema.getProp key).truthy || clean val (schema.getProp key) scopes) &&
      cleanObj tl schema scopes
termination_by structural fields

end

/-! ## Store matching semantics

The document store is an external collaborator (spec §6): it executes a
query "expressed as nested field-equality/operator objects".  The
semantics below is modelled from the spec for exactly the query fragment
this layer emits: field equality, `$in` set membership, `$gte`/`$lte`
bounds on numeric timestamps, `$exists` presence tests, case-insensitive
literal regex matches, and a top-level `$or` disjunction of sub-filters. -/

/-- Boolean test for the JS value `undefined`. -/
def isUndefined : JSVal → Bool
  | .vUndefined => true
  | _ => false

mutual

/-- Structural value equality, standing in for the store's equality on
stored primitive values. -/
def jsEqVal : JSVal → JSVal → Bool
  | .vUndefined, .vUndefined => true
  | .vNull, .vNull => true
  | .vBool a, .vBool b => a = b
  | .vNum a, .vNum b => a = b
  | .vStr a, .vStr b => a = b
  | .vRegexI a, .vRegexI b => a = b
  | .vMType a, .vMType b => a = b
  | .vValidator a, .vValidator b => a = b
  | .vArr a, .vArr b => jsEqArr a b
  | .vObj a, .vObj b => jsEqObj a b
  | _, _ => false
termination_by structural a => a

def jsEqArr : JSArr → JSArr → Bool
  | .nil, .nil => true
  | .cons h1 t1, .cons h2 t2 => jsEqVal h1 h2 && jsEqArr t1 t2
  | _, _ => false
termination_by structural a => a

def jsEqObj : JSObj → JSObj → Bool
  | .nil, .nil => true
  | .cons k1 v1 t1, .cons k2 v2 t2 => k1 = k2 && jsEqVal v1 v2 && jsEqObj t1 t2
  | _, _ => false
termination_by structural a => a

end

/-- Membership of a value in a query `$in` list. -/
def jsIncludes : JSArr → JSVal → Bool
  | .nil, _ => false
  | .cons hd tl, v => jsEqVal hd v || jsIncludes tl v

/-- Lowercase a character (ASCII, which is what the `i` regex flag means
for the field values this layer matches). -/
def charLower (c : Char) : Char :=
  if c.toNat ≥ 65 && c.toNat ≤ 90 then Char.ofNat (c.toNat + 32) else c

/-- Lowercase a string characterwise. -/
def strLower (s : String) : String := ⟨s.data.map charLower⟩

/-- Decides whether `needle` occurs at the start of `hay`. -/
def charsPrefixEq : List Char → List Char → Bool
  | [], _ => true
  | _ :: _, [] => false
  | c :: cs, h :: hs => c = h && charsPrefixEq cs hs

/-- Decides whether `needle` occurs contiguously anywhere in `hay`. -/
def charsInfixEq (needle hay : List Char) : Bool :=
  charsPrefixEq needle hay ||
    match hay with
    | [] => false
    | _ :: hs => charsInfixEq needle hs

/-- Matching of `RegExp(escapeRegExp(pat), 'i')` against a string:
`escapeRegExp` makes the pattern literal, and the `i` flag makes the
match case-insensitive, so this is a case-insensitive substring test. -/
def regexIMatches (pat s : String) : Bool :=
  charsInfixEq (strLower pat).data (strLower s).data

/-- Boolean test for a key carrying the reserved `$` operator prefix
(JS `key.startsWith('$')`). -/
def keyStartsDollar (k : String) : Bool :=
  match k.data with
  | [] => false
  | c :: _ => c = '$'

/-- Does the object have any `$`-prefixed key? -/
def hasDollarKey : JSObj → Bool
  | .nil => false
  | .cons k _ tl => keyStartsDollar k || hasDollarKey tl

/-- schema.js `isMongoOperator(obj)` (lines 413–417):
`Object.keys(obj).some((key) => key.startsWith('$'))`. -/
def isMongoOperator : JSVal → Bool
  | .vObj fields => hasDollarKey fields
  | _ => false

/-- Store semantics of a single operator applied to a stored value. -/
def evalOp (docval : JSVal) (op : String) (arg : JSVal) : Bool :=
  match op, arg with
  | "$in", .vArr l => jsIncludes l docval
  | "$exists", .vBool b => (!isUndefined docval) == b
  | "$gte", .vNum bound =>
    match docval with
    | .vNum n => bound ≤ n
    | _ => false
  | "$lte", .vNum bound =>
    match docval with
    | .vNum n => n ≤ bound
    | _ => false
  | _, _ => false

/-- Conjunction of all operators of an operator object. -/
def evalOps (docval : JSVal) : JSObj → Bool
  | .nil => true
  | .cons op arg tl => evalOp docval op arg && evalOps docval tl

/-- Store semantics of one filter entry `key: cond` against a document. -/
def evalField (d : JSObj) (key : String) (cond : JSVal) : Bool :=
  match cond with
  | .vRegexI pat =>
    match d.get key with
    | .vStr s => regexIMatches pat s
    | _ => false
  | .vObj ops =>
    if hasDollarKey ops then evalOps (d.get key) ops else jsEqVal (d.get key) cond
  | c => jsEqVal (d.get key) c

/-- Store semantics of a sub-filter inside `$or` (the sub-filters this
layer emits contain no nested `$or`). -/
def evalSub (d : JSObj) : JSVal → Bool
  | .vObj q => evalSubFields d q
  | _ => false
where
  evalSubFields (d : JSObj) : JSObj → Bool
  | .nil => true
  | .cons k cond tl => evalField d k cond && evalSubFields d tl

/-- Disjunction over a `$or` array of sub-filters. -/
def evalOrList (d : JSObj) : JSArr → Bool
  | .nil => false
  | .cons hd tl => evalSub d hd || evalOrList d tl

/-- Store semantics of one top-level filter entry. -/
def evalEntry (d : JSObj) (key : String) (cond : JSVal) : Bool :=
  if key = "$or" then
    match cond with
    | .vArr subs => evalOrList d subs
    | _ => false
  else evalField d key cond

/-- Store semantics of a whole filter: the conjunction of its entries
(an empty filter matches every document). -/
def evalQuery (d : JSObj) : JSObj → Bool
  | .nil => true
  | .cons k cond tl => evalEntry d k cond && evalQuery d tl

/-! ## Soft-delete lifecycle (schema.js lines 171–265) -/

/-- Query condition `{$exists: false}`. -/
def qExistsFalse : JSVal := .vObj (.cons "$exists" (.vBool false) .nil)

/-- Query condition `{$exists: true}`. -/
def qExistsTrue : JSVal := .vObj (.cons "$exists" (.vBool true) .nil)

/-- schema.js soft-delete pre-hook (lines 173–183), registered with
`schema.pre(/^find|count|exists/, ...)` so it runs on every find, count
and existence query: when `filter.deletedAt === undefined`, either drop a
key that is present with value `undefined`, or inject the default
`deletedAt: {$exists: false}`; a `deletedAt` with a defined value passes
through untouched. -/
def softDeleteHook (filter : JSObj) : JSObj :=
  if isUndefined (filter.get "deletedAt") then
    if filter.has "deletedAt" then filter.del "deletedAt"
    else filter.set "deletedAt" qExistsFalse
  else filter

/-- schema.js `findDeleted` / `findOneDeleted` / `countDocumentsDeleted`
(lines 199–231; `findByIdDeleted` and `existsDeleted` build the same
shape with a fixed caller filter): the executed filter is the caller's
filter spread with `deletedAt: {$exists: true}`, run through the
pre-hook like every find/count/exists. -/
def deletedVariantFilter (filter : JSObj) : JSObj :=
  softDeleteHook (filter.set "deletedAt" qExistsTrue)

/-- schema.js `findWithDeleted` / `findOneWithDeleted` /
`countDocumentsWithDeleted` (lines 233–265; `findByIdWithDeleted` and
`existsWithDeleted` build the same shape with a fixed caller filter): the
executed filter is the caller's filter spread with `deletedAt: undefined`
— a key present with value `undefined` — run through the pre-hook. -/
def withDeletedVariantFilter (filter : JSObj) : JSObj :=
  softDeleteHook (filter.set "deletedAt" .vUndefined)

/-! ## Search engine (schema.js lines 88–160 and 397–417) -/

/-- Modelled from the spec: `getFieldType` lives in `utils/validation`,
which is not under `src/`.  Per the spec (§3) a field's declared type is
the primitive name written either as a shorthand string or as the `type`
property of a descriptor object; composite or malformed nodes are not
string-like primitives. -/
def getFieldType (field : JSVal) : String :=
  match field with
  | .vStr s => s
  | .vObj fields =>
    match fields.get "type" with
    | .vStr s => s
    | _ => "Object"
  | _ => "Object"

/-- schema.js `getKeywordFields()` (lines 88–95): the top-level attribute
keys whose field — with an array field replaced by its first element,
exactly the computation of `resolveSchema` — has declared type `String`. -/
def getKeywordFields (attributes : JSObj) : List String :=
  attributes.keysList.filter (fun key =>
    getFieldType (resolveSchema (attributes.get key)) = "String")

/-- Modelled from the spec: `ObjectId.isValid` comes from the mongoose
driver (external).  The spec describes it as the check that the keyword
"is itself syntactically a valid identifier value"; modelled as a
24-character hexadecimal string. -/
def isValidObjectId (s : String) : Bool :=
  s.length = 24 && s.data.all (fun c =>
    (c.toNat ≥ 48 && c.toNat ≤ 57) ||
    (c.toNat ≥ 97 && c.toNat ≤ 102) ||
    (c.toNat ≥ 65 && c.toNat ≤ 70))

/-- The `$or` disjuncts built for a keyword (schema.js lines 103–122):
one case-insensitive literal regex per keyword field, plus an exact
`_id` equality when the keyword is a valid ObjectId. -/
def keywordOr (attributes : JSObj) (keyword : String) : List JSVal :=
  (getKeywordFields attributes).map
      (fun field => JSVal.vObj (.cons field (.vRegexI keyword) .nil))
    ++ (if isValidObjectId keyword then
        [JSVal.vObj (.cons "_id" (.vStr keyword) .nil)]
      else [])

mutual

/-- schema.js `flattenQuery(obj, path)` (lines 397–411): falsy values
contribute nothing; a plain object that is not a mongo operator object
enters the entry loop; everything else becomes a single entry at the
dot-joined path.  (`isPlainObject(obj)` holds exactly for `.vObj`, which
is always truthy, hence the branch layout.) -/
def flattenQuery (obj : JSVal) (path : List String) : JSObj :=
  if obj.truthy then
    match obj with
    | .vObj fields =>
      if !isMongoOperator (.vObj fields) then flattenLoop fields path .nil
      else .cons (String.intercalate "." path) (.vObj fields) .nil
    | v => .cons (String.intercalate "." path) v .nil
  else .nil
termination_by structural obj

/-- The `for (let [key, value] of Object.entries(obj))` loop of
`flattenQuery`, with `result` starting as `{}`: each iteration executes
`result = { ...flattenQuery(value, [...path, key]) }`, i.e. REPLACES the
accumulator instead of merging onto it, so the loop returns the
flattening of the last entry alone. -/
def flattenLoop (fields : JSObj) (path : List String) (result : JSObj) : JSObj :=
  match fields with
  | .nil => result
  | .cons key value tl => flattenLoop tl path (flattenQuery value (path ++ [key]))
termination_by structural fields

end

/-- The remaining-field loop of `search` (schema.js lines 132–142): an
array value adds `$in` set membership when non-empty and nothing when
empty; any other value is merged into the query with
`Object.assign(query, flattenQuery(value, [key]))`. -/
def applyRest (query : JSObj) (rest : JSObj) : JSObj :=
  match rest with
  | .nil => query
  | .cons key value tl =>
    match value with
    | .vArr l =>
      applyRest
        (match l with
          | .nil => query
          | .cons _ _ => query.set key (.vObj (.cons "$in" (.vArr l) .nil)))
        tl
    | v => applyRest (query.assign (flattenQuery v [key])) tl

/-- Embeds a JS array of id strings. -/
def idsArr : List String → JSArr
  | [] => .nil
  | id :: tl => .cons (.vStr id) (idsArr tl)

/-- The `createdAt` range object of `search` (schema.js lines 123–131):
`$gte` from `startAt` and `$lte` from `endAt`, each independently
optional. -/
def createdAtRange (startAt endAt : Option Int) : JSObj :=
  let r : JSObj := .nil
  let r := match startAt with
    | some t => r.set "$gte" (.vNum t)
    | none => r
  match endAt with
  | some t => r.set "$lte" (.vNum t)
  | none => r

/-- SearchRequest (spec §3): the destructured body of `search(body)`
(schema.js line 98).  `keyword = ""` and `ids = []` model the
falsy/absent cases (`if (keyword)` and `if (ids?.length)` treat them
alike); `sort`, `skip` and `limit` never touch the filter — they only
order and window the result — and are omitted from the filter model. -/
structure SearchBody where
  ids : List String := []
  keyword : String := ""
  startAt : Option Int := none
  endAt : Option Int := none
  rest : JSObj := .nil

/-- The filter object built by `schema.static('search', ...)` (schema.js
lines 97–143): `_id: {$in: ids}` for a non-empty id list, then the
keyword `$or` when it has any disjunct, then the `createdAt` range when
either bound is present, then every remaining field filter. -/
def buildQuery (attributes : JSObj) (body : SearchBody) : JSObj :=
  let query : JSObj := .nil
  let query := match body.ids with
    | [] => query
    | _ :: _ => query.set "_id" (.vObj (.cons "$in" (.vArr (idsArr body.ids)) .nil))
  let query := if body.keyword ≠ "" then
      (let orList := keywordOr attributes body.keyword
      if orList.isEmpty then query
      else query.set "$or" (.vArr (JSArr.ofList orList)))
    else query
  let query := if body.startAt.isSome || body.endAt.isSome then
      query.set "createdAt" (.vObj (createdAtRange body.startAt body.endAt))
    else query
  applyRest query body.rest

/-- Vocabulary for the keyword claim: document `d` matches field `field`
by a case-insensitive substring occurrence of `keyword` (only string
values can match a regex). -/
def strFieldMatches (d : JSObj) (keyword field : String) : Bool :=
  match d.get field with
  | .vStr s => regexIMatches keyword s
  | _ => false

/-- The falsy scalar filter values named by the claim: `null`, `0`, the
empty string, and `false`. -/
def falsyScalar : JSVal → Bool
  | .vNull => true
  | .vNum n => n = 0
  | .vStr s => s = ""
  | .vBool b => !b
  | _ => false

/-! ## Schema compiler (schema.js lines 289–332) -/

/-- The keys of `mongoose.Schema.Types`, mongoose's registry of schema
type classes (mongoose is an external dependency; this list embeds its
documented registry). -/
def mongooseTypeNames : List String :=
  ["String", "Number", "Boolean", "Date", "ObjectId", "Mixed", "Array",
    "Buffer", "Decimal128", "Map", "DocumentArray", "Subdocument"]

/-- schema.js `getMongooseType(str, attributes, path)` (lines 324–332):
an unknown type name throws
`Type ${str} could not be converted to Mongoose type.`; the `ObjectId`
type without a truthy `ref` on `attributes` throws
`Ref must be passed for ${path.join('.')}`; otherwise the resolved
mongoose type class is returned. -/
def getMongooseType (str : String) (attributes : JSVal) (path : List String) :
    Except String JSVal :=
  if !(mongooseTypeNames.contains str) then
    .error ("Type " ++ str ++ " could not be converted to Mongoose type.")
  else if str = "ObjectId" && !(attributes.getProp "ref").truthy then
    .error ("Ref must be passed for " ++ String.intercalate "." path)
  else .ok (.vMType str)

/-- The `isSchemaType` test of `attributesToDefinition` (lines 291–296):
`!!type && typeof type !== 'object'` — a truthy, non-object `type`
property marks a mongoose descriptor such as
`{ type: String, required: true }`. -/
def isSchemaTypeVal (attributes : JSVal) : Bool :=
  (attributes.getProp "type").truthy
    && !((attributes.getProp "type").typeofStr = "object")

/-- Modelled from the spec: `getMongooseValidator` lives in
`utils/validation`, not under `src/`.  Per the spec (§4.1) a string
`validate` expression "is compiled into a derivation bound to the
enclosing attribute tree"; the compiled validator is embedded as the
opaque value `vValidator`. -/
def getMongooseValidator (expr : String) : JSVal := .vValidator expr

/-- Entry processing of `attributesToDefinition` in the descriptor
(`isSchemaType`) case (lines 300–306): a string `type` resolves through
`getMongooseType`, a string `validate` compiles to a validator, every
other entry passes through. -/
def schemaTypeEntry (attributes : JSVal) (key : String) (val : JSVal)
    (path : List String) : Except String JSVal :=
  if key = "type" then
    match val with
    | .vStr s => getMongooseType s attributes path
    | _ => .ok val
  else if key = "validate" then
    match val with
    | .vStr s => .ok (getMongooseValidator s)
    | _ => .ok val
  else .ok val

/-- Per-character entry loop for the degenerate case of
`attributesToDefinition` applied to a string: JS `Object.entries` on a
string yields index/character pairs, and each single-character string
value funnels into `getMongooseType`. -/
def strEntriesLoop (attributes : JSVal) (chars : List Char) (i : Nat)
    (path : List String) : Except String JSObj :=
  match chars with
  | [] => .ok .nil
  | c :: tl => do
    let v ← getMongooseType (String.singleton c) attributes path
    let rest ← strEntriesLoop attributes tl (i + 1) path
    .ok (.cons (toString i) v rest)

mutual

/-- schema.js `attributesToDefinition(attributes, path)` (lines 289–322),
with errors as `Except` (the JS throws abort the whole compile at the
first offending entry, in entry order).  `Object.entries` of a plain
object iterates its fields; of an array, index/element pairs; of a
string, index/character pairs; of other primitives it yields nothing —
and of `null`/`undefined` it throws a `TypeError`. -/
def attributesToDefinition (attributes : JSVal) (path : List String := []) :
    Except String JSVal :=
  match attributes with
  | .vObj fields =>
    Except.map JSVal.vObj
      (attrFieldsLoop attributes fields (isSchemaTypeVal attributes) path)
  | .vArr l => Except.map JSVal.vObj (attrIdxLoop attributes l 0 path)
  | .vStr s => Except.map JSVal.vObj (strEntriesLoop attributes s.data 0 path)
  | .vNull => .error "Cannot convert undefined or null to object"
  | .vUndefined => .error "Cannot convert undefined or null to object"
  | _ => .ok (.vObj .nil)

/-- The `for (let [key, val] of Object.entries(attributes))` loop of
`attributesToDefinition` over a plain object's fields (lines 298–319):
in a descriptor, entries resolve via `schemaTypeEntry`; otherwise every
key except `readScopes` recurses into arrays (extending the path with
the element index), recurses into plain objects (extending the path with
the key), or resolves a shorthand string type. -/
def attrFieldsLoop (attributes : JSVal) (fields : JSObj) (ist : Bool)
    (path : List String) : Except String JSObj :=
  match fields with
  | .nil => .ok .nil
  | .cons key val tl => do
    let v ←
      if ist then schemaTypeEntry attributes key val path
      else if key ≠ "readScopes" then
        match val with
        | .vArr l => Except.map JSVal.vArr (attrArrLoop l path 0)
        | .vObj o => attributesToDefinition (.vObj o) (path ++ [key])
        | .vStr s => getMongooseType s attributes path
        | other => .ok other
      else .ok val
    let rest ← attrFieldsLoop attributes tl ist path
    .ok (.cons key v rest)

/-- The array branch of `attributesToDefinition` (lines 308–311):
`val.map((el, i) => attributesToDefinition(el, [...path, i]))` — note
the path is extended with the element index, not the field key. -/
def attrArrLoop (l : JSArr) (path : List String) (i : Nat) :
    Except String JSArr :=
  match l with
  | .nil => .ok .nil
  | .cons el tl => do
    let d ← attributesToDefinition el (path ++ [toString i])
    let rest ← attrArrLoop tl path (i + 1)
    .ok (.cons d rest)

/-- The entry loop of `attributesToDefinition` for the degenerate case
of an array passed as the attributes object: `Object.entries` yields
index/element pairs and `isSchemaType` is false (arrays have no `type`
property), so each element funnels through the non-descriptor branches
under its index key. -/
def attrIdxLoop (attributes : JSVal) (l : JSArr) (i : Nat)
    (path : List String) : Except String JSObj :=
  match l with
  | .nil => .ok .nil
  | .cons el tl => do
    let v ←
      match el with
      | .vArr l2 => Except.map JSVal.vArr (attrArrLoop l2 path 0)
      | .vObj o => attributesToDefinition (.vObj o) (path ++ [toString i])
      | .vStr s => getMongooseType s attributes path
      | other => .ok other
    let rest ← attrIdxLoop attributes tl (i + 1) path
    .ok (.cons (toString i) v rest)

end

/-- The definition object built by `createSchema` (lines 42–60): the
compiled attributes spread together with `deletedAt: {type: Date}`.
(The other `mongoose.Schema` arguments — timestamps, the serializer
options — configure behavior embedded elsewhere in this file.) -/
def createSchemaDefinition (attributes : JSVal) : Except String JSVal := do
  let d ← attributesToDefinition attributes []
  match d with
  | .vObj fields =>
    .ok (.vObj (fields.set "deletedAt" (.vObj (.cons "type" (.vMType "Date") .nil))))
  | v => .ok v

/-- Builds the nested singleton attribute tree
`{k₁: {k₂: ... {kₙ: inner}}}`. -/
def nestAttr : List String → JSVal → JSVal
  | [], inner => inner
  | k :: rest, inner => .vObj (.cons k (nestAttr rest inner) .nil)

/-! ## Model loader (schema.js lines 355–389) -/

/-- One parsed model definition file: an optional explicit `modelName`
and the `attributes` tree (`undefined` when the JSON lacks the key). -/
structure ModelDefinition where
  modelName : Option String := none
  attributes : JSVal := .vUndefined

/-- schema.js `loadModel(definition, name)` (lines 355–366): missing
(falsy) attributes fail immediately; a compile error is rethrown with
` (loading ${name})` appended. -/
def loadModel (definition : ModelDefinition) (name : String) :
    Except String JSVal :=
  if !definition.attributes.truthy then
    .error ("Invalid model definition for " ++ name ++ ", need attributes")
  else
    match createSchemaDefinition definition.attributes with
    | .ok schema => .ok schema
    | .error msg => .error (msg ++ " (loading " ++ name ++ ")")

/-- Modelled from the spec (partially): in `loadModelDir` (lines
368–389) the directory scan, JSON parsing and lodash name derivation
(`startCase(basename).replace(/\s/g, '')`) are external (`fs`, `JSON`,
`lodash`); files arrive here as parsed definitions paired with their
`.json` base name, and the fallback name derivation is modelled as
capitalizing the base name (exact for single-word file names). -/
def deriveModelName (basename : String) : String := basename.capitalize

/-- schema.js `loadModelDir(dirPath)` (lines 368–389) over the parsed
definition files, threading the `mongoose.models` registry: a name that
is already registered skips `loadModel` entirely
(`if (!mongoose.models[modelName])`); a load error is logged and
rethrown, aborting the walk. -/
def loadModelDir (files : List (String × ModelDefinition))
    (models : List (String × JSVal)) : Except String (List (String × JSVal)) :=
  match files with
  | [] => .ok models
  | (basename, definition) :: rest =>
    let modelName := definition.modelName.getD (deriveModelName basename)
    if (models.lookup modelName).isNone then
      match loadModel definition modelName with
      | .ok m => loadModelDir rest ((modelName, m) :: models)
      | .error e => .error e
    else loadModelDir rest models

/-! ## Validation schema derivation (schema.js lines 62–86 and 272–287) -/

/-- schema.js `RESERVED_FIELDS` (line 14). -/
def RESERVED_FIELDS : List String := ["id", "createdAt", "updatedAt", "deletedAt"]

/-- A compiled model under validation-schema derivation: the raw
attribute definition and the schema's virtuals with their getter counts
(`schema.virtuals[key].getters.length`).  Virtuals are registered on the
schema by the per-model code outside this file, plus mongoose's
automatic `id` virtual. -/
structure ModelSchema where
  attributes : JSObj
  virtuals : List (String × Nat)

/-- The key set of `schema.obj` for a schema built by `createSchema`
(lines 42–60): the compiled definition keeps the attribute keys
unchanged, and `deletedAt` is added. -/
def schemaObjKeys (m : ModelSchema) : List String :=
  m.attributes.keysList ++ ["deletedAt"]

/-- schema.js `getJoiSchemaFromMongoose` (lines 272–277): the getter
virtuals, `Object.keys(schema.virtuals)` filtered to those with
`getters.length > 0`. -/
def getterNames (m : ModelSchema) : List String :=
  (m.virtuals.filter (fun kv => kv.2 > 0)).map (fun kv => kv.1)

/-- Modelled from the spec: `getJoiSchema` lives in `utils/validation`,
not under `src/`.  Per the spec (§4.2, §6) it composes a validation
schema over the given fields with `stripFields` removed and the
`appendSchema` fields merged in; only the resulting top-level field set
is modelled here (`skipRequired`, `skipEmptyCheck` and
`unwindArrayFields` relax rules without changing the field set). -/
def getJoiSchemaFields (inputKeys stripFields appendFields : List String) :
    List String :=
  inputKeys.filter (fun k => !stripFields.contains k) ++ appendFields

/-- schema.js `getCreateValidation` (lines 62–66), through
`getJoiSchemaFromMongoose` (lines 272–287): fields are the `schema.obj`
keys minus `RESERVED_FIELDS` and the getter virtuals, plus the caller's
`appendSchema` fields. -/
def createValidationFields (m : ModelSchema) (append : List String) :
    List String :=
  getJoiSchemaFields (schemaObjKeys m) (RESERVED_FIELDS ++ getterNames m) append

/-- schema.js `getUpdateValidation` (lines 68–73): identical stripping to
create; `skipRequired` only relaxes rules. -/
def updateValidationFields (m : ModelSchema) (append : List String) :
    List String :=
  getJoiSchemaFields (schemaObjKeys m) (RESERVED_FIELDS ++ getterNames m) append

/-- schema.js `getSearchValidation` (lines 75–86): built from the raw
`attributes` — not from the mongoose schema — with only
`RESERVED_FIELDS` stripped; the search-only fields (from
`searchValidation(searchOptions)`) and the caller's `appendSchema` are
merged in.  Getter virtuals are not in its strip list. -/
def searchValidationFields (m : ModelSchema) (searchFields append : List String) :
    List String :=
  getJoiSchemaFields m.attributes.keysList RESERVED_FIELDS (searchFields ++ append)

mutual

theorem transformField_clean (obj schema : JSVal) (scopes : List String) :
    clean (transformField obj schema scopes) schema scopes = true :=
  match obj with
  | .vUndefined => by simp [transformField, clean]
  | .vNull => by simp [transformField, clean]
  | .vBool _ => by simp [transformField, clean]
  | .vNum _ => by simp [transformField, clean]
  | .vStr _ => by simp [transformField, clean]
  | .vRegexI _ => by simp [transformField, clean]
  | .vMType _ => by simp [transformField, clean]
  | .vValidator _ => by simp [transformField, clean]
  | .vArr l => by
    simpa [transformField, clean] using transformArr_clean l schema scopes
  | .vObj fields => by
    simpa [transformField, clean] using transformObj_clean fields schema scopes
termination_by structural obj

theorem transformArr_clean (l : JSArr) (schema : JSVal) (scopes : List String) :
    cleanArr (transformArr l schema scopes) schema scopes = true :=
  match l with
  | .nil => by simp [transformArr, cleanArr]
  | .cons hd tl => by
    simp only [transformArr, cleanArr, Bool.and_eq_true]
    exact ⟨transformField_clean hd (resolveSchema schema) scopes,
      transformArr_clean tl schema scopes⟩
termination_by structural l

theorem transformObj_clean (fields : JSObj) (schema : JSVal) (scopes : List String) :
    cleanObj (transformObj fields schema scopes) schema scopes = true :=
  match fields with
  | .nil => by simp [transformObj, cleanObj]
  | .cons key val tl => by
    by_cases hdrop : (keyIsPrivate key || !isAllowedField (schema.getProp key) scopes) = true
    · simpa [transformObj, hdrop] using transformObj_clean tl schema scopes
    · have hpriv : keyIsPrivate key = false := by
        cases h : keyIsPrivate key <;> simp [h] at hdrop ⊢
      have hallow : isAllowedField (schema.getProp key) scopes = true := by
        cases h : isAllowedField (schema.getProp key) scopes <;> simp [h, hpriv] at hdrop ⊢
      by_cases htr : (schema.getProp key).truthy = true
      · simp only [transformObj, hpriv, hallow, htr, Bool.false_or, Bool.not_true,
          Bool.or_false, if_neg, Bool.false_eq_true, not_false_iff, if_pos, cleanObj,
          Bool.and_eq_true, Bool.not_false, Bool.or_true, true_and]
        refine ?_
        simp [hpriv, hallow, htr, transformField_clean val (schema.getProp key) scopes,
          transformObj_clean tl schema scopes]
      · simp [transformObj, hpriv, hallow, htr, cleanObj,
          transformObj_clean tl schema scopes]
termination_by structural fields

end

theorem transformObj_has_of_disallowed (fields : JSObj) (schema : JSVal)
    (scopes : List String) (key : String)
    (h : isAllowedField (schema.getProp key) scopes = false) :
    (transformObj fields schema scopes).has key = false :=
  match fields with
  | .nil => by simp [transformObj, JSObj.has]
  | .cons k v tl => by
    by_cases hk : k = key
    · subst hk
      simpa [transformObj, h] using
        transformObj_has_of_disallowed tl schema scopes k h
    · by_cases hdrop : (keyIsPrivate k || !isAllowedField (schema.getProp k) scopes) = true
      · simpa [transformObj, hdrop] using
          transformObj_has_of_disallowed tl schema scopes key h
      · by_cases htr : (schema.getProp k).truthy = true
        · simpa [transformObj, hdrop, htr, JSObj.has, hk] using
            transformObj_has_of_disallowed tl schema scopes key h
        · simpa [transformObj, hdrop, htr, JSObj.has, hk] using
            transformObj_has_of_disallowed tl schema scopes key h
termination_by structural fields

theorem transformObj_has_of_kept (fields : JSObj) (schema : JSVal)
    (scopes : List String) (key : String)
    (hpriv : keyIsPrivate key = false)
    (hallow : isAllowedField (schema.getProp key) scopes = true) :
    (transformObj fields schema scopes).has key = fields.has key :=
  match fields with
  | .nil => by simp [transformObj]
  | .cons k v tl => by
    by_cases hk : k = key
    · subst hk
      by_cases htr : (schema.getProp k).truthy = true
      · simp [transformObj, hpriv, hallow, htr, JSObj.has]
      · simp [transformObj, hpriv, hallow, htr, JSObj.has]
    · by_cases hdrop : (keyIsPrivate k || !isAllowedField (schema.getProp k) scopes) = true
      · simpa [transformObj, hdrop, JSObj.has, hk] using
          transformObj_has_of_kept tl schema scopes key hpriv hallow
      · by_cases htr : (schema.getProp k).truthy = true
        · simpa [transformObj, hdrop, htr, JSObj.has, hk] using
            transformObj_has_of_kept tl schema scopes key hpriv hallow
        · simpa [transformObj, hdrop, htr, JSObj.has, hk] using
            transformObj_has_of_kept tl schema scopes key hpriv hallow
termination_by structural fields

/-- C2 (amended): for every document, schema and caller scope set, the
serializer's output satisfies `clean`: every key of every object node the
serializer reaches is neither private-prefixed nor disallowed by
`readScopes`, and the serializer reaches every array element (with the
array element's schema resolved first) but descends into an object-valued
field only when that field's schema entry is truthy — a field value whose
schema entry is absent or falsy is kept verbatim, its contents untouched. -/
theorem c2_serializer_redacts_reachable (obj schema : JSVal) (scopes : List String) :
    clean (transformField obj schema scopes) schema scopes = true :=
  transformField_clean obj schema scopes

/-- C2 counterexample: the claim as stated fails — with schema `{}` (no
entry for `foo`), serializing `{foo: {_secret: 1}}` keeps the
private-prefixed field `_secret` at nesting depth 2, because the
serializer does not descend into a field whose schema entry is falsy.  So
the removal is not applied at every nesting depth. -/
theorem c2_counterexample :
    ((transformField
        (.vObj (.cons "foo" (.vObj (.cons "_secret" (.vNum 1) .nil)) .nil))
        (.vObj .nil) []).getProp "foo").getProp "_secret" = .vNum 1 := by
  simp [transformField, transformObj, isAllowedField, JSVal.getProp, JSObj.get,
    resolveSchema, JSVal.truthy, keyIsPrivate]

/-- C10 (amended): during serialization a field whose resolved
`readScopes` value is present but neither the literal `"all"` nor an
array is removed for every caller scope set (the check fails closed);
conversely a field that is not private-prefixed and has no schema entry
or no `readScopes` (resolved `readScopes` is `undefined`) is kept for
every caller.  (A private-prefixed field is removed regardless of its
schema entry.) -/
theorem c10_read_scopes_fail_closed (fields : JSObj) (schema : JSVal)
    (scopes : List String) (key : String) :
    (((resolveSchema (schema.getProp key)).getProp "readScopes" ≠ .vUndefined) →
      ((resolveSchema (schema.getProp key)).getProp "readScopes" ≠ .vStr "all") →
      (∀ l, (resolveSchema (schema.getProp key)).getProp "readScopes" ≠ .vArr l) →
      (transformObj fields schema scopes).has key = false)
    ∧ ((resolveSchema (schema.getProp key)).getProp "readScopes" = .vUndefined →
      keyIsPrivate key = false →
      (transformObj fields schema scopes).has key = fields.has key) := by
  constructor
  · intro h1 h2 h3
    have hallow : isAllowedField (schema.getProp key) scopes = false := by
      unfold isAllowedField
      cases hrs : (resolveSchema (schema.getProp key)).getProp "readScopes" with
      | vUndefined => exact absurd hrs h1
      | vStr s =>
        by_cases hs : s = "all"
        · exact absurd (hs ▸ hrs) h2
        · simp [hs]
      | vArr l => exact absurd hrs (h3 l)
      | vNull => rfl
      | vBool b => rfl
      | vNum n => rfl
      | vRegexI p => rfl
      | vMType t => rfl
      | vValidator e => rfl
      | vObj fs => rfl
    exact transformObj_has_of_disallowed fields schema scopes key hallow
  · intro hrs hpriv
    have hallow : isAllowedField (schema.getProp key) scopes = true := by
      unfold isAllowedField
      rw [hrs]
    exact transformObj_has_of_kept fields schema scopes key hpriv hallow

/-- C10 counterexample: the claim as stated fails — the field `_x` has no
schema entry at all, yet it is removed for every caller (here the empty
scope set), because it carries the private prefix. -/
theorem c10_counterexample :
    transformField (.vObj (.cons "_x" (.vNum 1) .nil)) (.vObj .nil) [] = .vObj .nil := by
  simp [transformField, transformObj, keyIsPrivate]

/-- C10 witness: the fail-closed branch removes a field guarded by
`readScopes: 'admin'` from a caller holding only `other`, and the
default branch keeps a field that has no schema entry. -/
theorem c10_witness :
    (transformObj (.cons "secret" (.vNum 5) .nil)
        (.vObj (.cons "secret" (.vObj (.cons "readScopes" (.vStr "admin") .nil)) .nil))
        ["other"]).has "secret" = false
    ∧ (transformObj (.cons "name" (.vStr "a") .nil) (.vObj .nil) ["other"]).has "name"
        = (JSObj.cons "name" (.vStr "a") .nil).has "name" := by
  constructor
  · exact (c10_read_scopes_fail_closed _ _ _ _).1
      (by simp [resolveSchema, JSVal.getProp, JSObj.get])
      (by simp [resolveSchema, JSVal.getProp, JSObj.get])
      (by simp [resolveSchema, JSVal.getProp, JSObj.get])
  · exact (c10_read_scopes_fail_closed _ _ _ _).2
      (by simp [resolveSchema, JSVal.getProp, JSObj.get])
      (by simp [keyIsPrivate])

theorem JSObj.get_of_not_has (o : JSObj) (k : String) (h : o.has k = false) :
    o.get k = .vUndefined :=
  match o with
  | .nil => rfl
  | .cons k' v tl => by
    simp only [JSObj.has, Bool.or_eq_false_iff, decide_eq_false_iff_not] at h
    simp [JSObj.get, h.1, JSObj.get_of_not_has tl k h.2]
termination_by structural o

theorem JSObj.get_append_self (o : JSObj) (k : String) (v : JSVal)
    (h : o.has k = false) : (o.append k v).get k = v :=
  match o with
  | .nil => by simp [JSObj.append, JSObj.get]
  | .cons k' v' tl => by
    simp only [JSObj.has, Bool.or_eq_false_iff, decide_eq_false_iff_not] at h
    simp [JSObj.append, JSObj.get, h.1, JSObj.get_append_self tl k v h.2]
termination_by structural o

theorem JSObj.get_replace_self (o : JSObj) (k : String) (v : JSVal)
    (h : o.has k = true) : (o.replace k v).get k = v :=
  match o with
  | .nil => by simp [JSObj.has] at h
  | .cons k' v' tl => by
    by_cases hk : k' = k
    · simp [JSObj.replace, JSObj.get, hk]
    · simp only [JSObj.has, hk, Bool.or_eq_true, decide_eq_true_eq, false_or] at h
      simp [JSObj.replace, JSObj.get, hk, JSObj.get_replace_self tl k v h]
termination_by structural o

theorem JSObj.get_set_self (o : JSObj) (k : String) (v : JSVal) :
    (o.set k v).get k = v := by
  unfold JSObj.set
  by_cases h : o.has k = true
  · simp [h, JSObj.get_replace_self o k v h]
  · simp only [Bool.not_eq_true] at h
    simp [h, JSObj.get_append_self o k v h]

theorem JSObj.has_append_self (o : JSObj) (k : String) (v : JSVal) :
    (o.append k v).has k = true :=
  match o with
  | .nil => by simp [JSObj.append, JSObj.has]
  | .cons k' v' tl => by
    simp [JSObj.append, JSObj.has, JSObj.has_append_self tl k v]
termination_by structural o

theorem JSObj.has_replace (o : JSObj) (k : String) (v : JSVal) (k' : String) :
    (o.replace k v).has k' = o.has k' :=
  match o with
  | .nil => rfl
  | .cons k'' v' tl => by
    simp [JSObj.replace, JSObj.has, JSObj.has_replace tl k v k']
termination_by structural o

theorem JSObj.has_set_self (o : JSObj) (k : String) (v : JSVal) :
    (o.set k v).has k = true := by
  unfold JSObj.set
  by_cases h : o.has k = true
  · simp [h, JSObj.has_replace]
  · simp [h, JSObj.has_append_self]

theorem JSObj.has_del_self (o : JSObj) (k : String) : (o.del k).has k = false :=
  match o with
  | .nil => rfl
  | .cons k' v tl => by
    by_cases hk : k' = k
    · simp [JSObj.del, hk, JSObj.has_del_self tl k]
    · simp [JSObj.del, hk, JSObj.has, JSObj.has_del_self tl k, Ne.symm hk]
termination_by structural o

theorem evalQuery_append (d : JSObj) (o : JSObj) (k : String) (cond : JSVal) :
    evalQuery d (o.append k cond) = (evalQuery d o && evalEntry d k cond) :=
  match o with
  | .nil => by simp [JSObj.append, evalQuery]
  | .cons k' c' tl => by
    simp [JSObj.append, evalQuery, evalQuery_append d tl k cond, Bool.and_assoc]
termination_by structural o

theorem evalQuery_entry_of_true (d : JSObj) (q : JSObj) (k : String)
    (hq : evalQuery d q = true) (hk : q.has k = true) :
    evalEntry d k (q.get k) = true :=
  match q with
  | .nil => by simp [JSObj.has] at hk
  | .cons k' c tl => by
    simp only [evalQuery, Bool.and_eq_true] at hq
    by_cases hkk : k' = k
    · subst hkk
      simpa [JSObj.get] using hq.1
    · simp only [JSObj.has, hkk, Bool.or_eq_true, decide_eq_true_eq, false_or] at hk
      simpa [JSObj.get, hkk] using evalQuery_entry_of_true d tl k hq.2 hk
termination_by structural q

/-- C1: soft-delete filtering of the read path.  For every caller filter
and document: (1) when the filter does not mention `deletedAt`, the
pre-hook (which runs on every find, count and existence query) extends
the filter with `deletedAt: {$exists: false}`, and the executed query
rejects every document whose `deletedAt` is set; (2) when the filter
mentions `deletedAt` with a defined value, the filter is executed
verbatim; (3) the `*Deleted` variants execute with
`deletedAt: {$exists: true}` whatever the caller filter held, and any
matching document has `deletedAt` set; (4) the `*WithDeleted` variants
execute with no `deletedAt` constraint at all, whatever the caller
filter held. -/
theorem c1_soft_delete_read_path (filter d : JSObj) :
    (filter.has "deletedAt" = false →
      softDeleteHook filter = filter.set "deletedAt" qExistsFalse
        ∧ (isUndefined (d.get "deletedAt") = false →
            evalQuery d (softDeleteHook filter) = false))
    ∧ (isUndefined (filter.get "deletedAt") = false → softDeleteHook filter = filter)
    ∧ ((deletedVariantFilter filter).get "deletedAt" = qExistsTrue
        ∧ (evalQuery d (deletedVariantFilter filter) = true →
            isUndefined (d.get "deletedAt") = false))
    ∧ (withDeletedVariantFilter filter).has "deletedAt" = false := by
  have hookDel : ∀ f : JSObj, softDeleteHook (f.set "deletedAt" qExistsTrue)
      = f.set "deletedAt" qExistsTrue := by
    intro f
    unfold softDeleteHook
    rw [JSObj.get_set_self]
    simp [isUndefined, qExistsTrue]
  refine ⟨?_, ?_, ⟨?_, ?_⟩, ?_⟩
  · intro h
    have hget : filter.get "deletedAt" = .vUndefined := JSObj.get_of_not_has filter _ h
    have happ : filter.set "deletedAt" qExistsFalse = filter.append "deletedAt" qExistsFalse := by
      unfold JSObj.set
      simp [h]
    have hhook : softDeleteHook filter = filter.append "deletedAt" qExistsFalse := by
      unfold softDeleteHook
      simp [hget, isUndefined, h, happ]
    refine ⟨happ ▸ hhook, ?_⟩
    intro hd
    rw [hhook, evalQuery_append]
    have : evalEntry d "deletedAt" qExistsFalse = false := by
      simp [evalEntry, evalField, qExistsFalse, hasDollarKey, keyStartsDollar,
        evalOps, evalOp, hd]
    simp [this]
  · intro h
    unfold softDeleteHook
    simp [h]
  · unfold deletedVariantFilter
    rw [hookDel, JSObj.get_set_self]
  · intro h
    unfold deletedVariantFilter at h
    rw [hookDel] at h
    have hmem := evalQuery_entry_of_true d _ "deletedAt" h
      (JSObj.has_set_self filter "deletedAt" qExistsTrue)
    rw [JSObj.get_set_self] at hmem
    simp only [evalEntry, evalField, qExistsTrue, hasDollarKey, keyStartsDollar,
      evalOps, evalOp, if_false] at hmem
    revert hmem
    cases hd : isUndefined (d.get "deletedAt") <;> simp
  · unfold withDeletedVariantFilter softDeleteHook
    rw [JSObj.get_set_self]
    simp [isUndefined, JSObj.has_set_self, JSObj.has_del_self]

/-- C1 witness: concrete runs of all four branches — the injected
default excludes a soft-deleted document from an unrelated query; a
caller filter `deletedAt: null` passes verbatim; `findDeleted` of a
soft-deleted document matches and implies `deletedAt` is set; and
`findWithDeleted` drops the caller's own `deletedAt` constraint. -/
theorem c1_witness :
    evalQuery (JSObj.cons "deletedAt" (.vNum 5) .nil) (softDeleteHook .nil) = false
    ∧ softDeleteHook (JSObj.cons "deletedAt" .vNull .nil)
        = JSObj.cons "deletedAt" .vNull .nil
    ∧ isUndefined ((JSObj.cons "deletedAt" (.vNum 5) .nil).get "deletedAt") = false
    ∧ (withDeletedVariantFilter (JSObj.cons "deletedAt" (.vNum 7) .nil)).has "deletedAt"
        = false := by
  refine ⟨((c1_soft_delete_read_path .nil (JSObj.cons "deletedAt" (.vNum 5) .nil)).1
      rfl).2 (by simp [JSObj.get, isUndefined]),
    (c1_soft_delete_read_path (JSObj.cons "deletedAt" .vNull .nil) .nil).2.1
      (by simp [JSObj.get, isUndefined]),
    (c1_soft_delete_read_path .nil (JSObj.cons "deletedAt" (.vNum 5) .nil)).2.2.1.2 ?_,
    (c1_soft_delete_read_path (JSObj.cons "deletedAt" (.vNum 7) .nil) .nil).2.2.2⟩
  simp [deletedVariantFilter, softDeleteHook, qExistsTrue, JSObj.set, JSObj.has,
    JSObj.append, JSObj.get, isUndefined, evalQuery, evalEntry, evalField,
    hasDollarKey, keyStartsDollar, evalOps, evalOp]

theorem JSObj.get_replace_ne (o : JSObj) (k : String) (v : JSVal) (key' : String)
    (h : k ≠ key') : (o.replace k v).get key' = o.get key' :=
  match o with
  | .nil => rfl
  | .cons k'' v' tl => by
    by_cases hk : k'' = key'
    · subst hk
      simp [JSObj.replace, JSObj.get, (Ne.symm h)]
    · simp [JSObj.replace, JSObj.get, hk, JSObj.get_replace_ne tl k v key' h]
termination_by structural o

theorem JSObj.get_append_ne (o : JSObj) (k : String) (v : JSVal) (key' : String)
    (h : k ≠ key') : (o.append k v).get key' = o.get key' :=
  match o with
  | .nil => by simp [JSObj.append, JSObj.get, h]
  | .cons k'' v' tl => by
    simp [JSObj.append, JSObj.get, JSObj.get_append_ne tl k v key' h]
termination_by structural o

theorem JSObj.get_set_ne (o : JSObj) (k : String) (v : JSVal) (key' : String)
    (h : k ≠ key') : (o.set k v).get key' = o.get key' := by
  unfold JSObj.set
  by_cases hh : o.has k = true
  · simp [hh, JSObj.get_replace_ne o k v key' h]
  · simp [hh, JSObj.get_append_ne o k v key' h]

theorem evalField_regex (d : JSObj) (f k : String) :
    evalField d f (.vRegexI k) = strFieldMatches d k f := by
  cases h : d.get f <;> simp [evalField, strFieldMatches, h]

theorem evalOrList_fields_aux (d : JSObj) (k : String) (fs : List String)
    (rest : List JSVal) :
    evalOrList d (JSArr.ofList
        (fs.map (fun f => JSVal.vObj (.cons f (.vRegexI k) .nil)) ++ rest))
      = (fs.any (strFieldMatches d k) || evalOrList d (JSArr.ofList rest)) := by
  induction fs with
  | nil => simp
  | cons f tl ih =>
    simp only [List.map_cons, List.cons_append, JSArr.ofList, evalOrList, ih,
      List.any_cons, Bool.or_assoc, List.append_eq]
    rw [show evalSub d (JSVal.vObj (.cons f (.vRegexI k) .nil))
        = strFieldMatches d k f by
      simp [evalSub, evalSub.evalSubFields, evalField_regex]]

theorem evalOrList_keywordOr (d : JSObj) (attributes : JSObj) (k : String) :
    evalOrList d (JSArr.ofList (keywordOr attributes k))
      = ((getKeywordFields attributes).any (strFieldMatches d k)
        || (isValidObjectId k && jsEqVal (d.get "_id") (.vStr k))) := by
  unfold keywordOr
  rw [evalOrList_fields_aux]
  by_cases hv : isValidObjectId k = true
  · simp [hv, JSArr.ofList, evalOrList, evalSub, evalSub.evalSubFields, evalField]
  · simp only [Bool.not_eq_true] at hv
    simp [hv, JSArr.ofList, evalOrList]

/-- C3: keyword search.  For every model attribute set, search body with
a non-empty keyword, and document: (1) the keyword's `$or` disjunction
matches the document exactly when some declared string-typed field
matches the keyword as a case-insensitive substring, or the keyword is a
syntactically valid identifier equal to the document id; (2) when the
disjunct list is non-empty (and no further field filters follow), the
built query carries it as its `$or` constraint; (3) when the model has
no string-typed fields and the keyword is not a valid identifier, the
keyword contributes nothing: the built query is the one built without
the keyword; (4) in that case a search body carrying nothing but the
keyword builds the empty filter, which matches every document (and no
error is raised — the builder is total). -/
theorem c3_keyword_search (attributes : JSObj) (body : SearchBody) (d : JSObj)
    (hk : body.keyword ≠ "") :
    (evalOrList d (JSArr.ofList (keywordOr attributes body.keyword))
        = ((getKeywordFields attributes).any (strFieldMatches d body.keyword)
          || (isValidObjectId body.keyword
              && jsEqVal (d.get "_id") (.vStr body.keyword))))
    ∧ (body.rest = .nil → keywordOr attributes body.keyword ≠ [] →
        (buildQuery attributes body).get "$or"
          = .vArr (JSArr.ofList (keywordOr attributes body.keyword)))
    ∧ (getKeywordFields attributes = [] → isValidObjectId body.keyword = false →
        buildQuery attributes body = buildQuery attributes { body with keyword := "" })
    ∧ (getKeywordFields attributes = [] → isValidObjectId body.keyword = false →
        body.ids = [] → body.startAt = none → body.endAt = none → body.rest = .nil →
        evalQuery d (buildQuery attributes body) = true) := by
  refine ⟨evalOrList_keywordOr d attributes body.keyword, ?_, ?_, ?_⟩
  · intro hrest horl
    obtain ⟨ids, kw, sa, ea, rest⟩ := body
    simp only at hk hrest horl ⊢
    subst hrest
    have hner : ∀ (o : JSObj) (v : JSVal),
        (JSObj.set o "createdAt" v).get "$or" = o.get "$or" :=
      fun o v => JSObj.get_set_ne o _ v _ (by decide)
    have hempty : (keywordOr attributes kw).isEmpty = false := by
      simpa [List.isEmpty_iff] using horl
    cases sa <;> cases ea <;> cases ids <;>
      simp [buildQuery, applyRest, hk, hempty, hner, JSObj.get_set_self]
  · intro hfields hvalid
    have horl : keywordOr attributes body.keyword = [] := by
      simp [keywordOr, hfields, hvalid]
    simp [buildQuery, horl, hk]
  · intro hfields hvalid hids hstart hend hrest
    have horl : keywordOr attributes body.keyword = [] := by
      simp [keywordOr, hfields, hvalid]
    simp [buildQuery, horl, hk, hids, hstart, hend, hrest, applyRest, evalQuery]

/-- C3 witness: on a model with one string field `name` and one number
field `age`, the keyword `"ab"` matches a document whose `name` contains
`"AB"`; and on a model with no string field, a non-identifier keyword
builds the same query as no keyword at all. -/
theorem c3_witness :
    evalOrList (JSObj.cons "name" (.vStr "xAByz") .nil)
        (JSArr.ofList (keywordOr
          (JSObj.cons "name" (.vStr "String")
            (.cons "age" (.vObj (.cons "type" (.vStr "Number") .nil)) .nil)) "ab"))
      = true
    ∧ buildQuery (JSObj.cons "age" (.vObj (.cons "type" (.vStr "Number") .nil)) .nil)
        { keyword := "zz" }
      = buildQuery (JSObj.cons "age" (.vObj (.cons "type" (.vStr "Number") .nil)) .nil)
        { keyword := "" } := by
  constructor
  · rw [(c3_keyword_search
      (JSObj.cons "name" (.vStr "String")
        (.cons "age" (.vObj (.cons "type" (.vStr "Number") .nil)) .nil))
      { keyword := "ab" }
      (JSObj.cons "name" (.vStr "xAByz") .nil) (by decide)).1]
    have hm : regexIMatches "ab" "xAByz" = true := by decide
    simp [getKeywordFields, JSObj.keysList, JSObj.get, getFieldType, resolveSchema,
      strFieldMatches, hm]
  · exact (c3_keyword_search _ { keyword := "zz" } .nil (by decide)).2.2.1
      (by decide) (by decide)

/-- C4: evaluation of the query builder at the failing input.  For the
field filter `{foo: {a: 1, b: 2}}` the built query holds only the
`'foo.b': 2` entry — the `'foo.a': 1` entry required by the claim is
absent, because the `flattenQuery` loop reassigns its accumulator
(`result = { ...flattenQuery(value, [...path, key]) }`) instead of
merging onto it, keeping only the last entry of every plain object. -/
theorem c4_flatten_drops_siblings :
    buildQuery .nil
        { rest := .cons "foo"
            (.vObj (.cons "a" (.vNum 1) (.cons "b" (.vNum 2) .nil))) .nil }
      = .cons "foo.b" (.vNum 2) .nil
    ∧ (buildQuery .nil
        { rest := .cons "foo"
            (.vObj (.cons "a" (.vNum 1) (.cons "b" (.vNum 2) .nil))) .nil }).has "foo.a"
      = false := by
  have h1 : String.intercalate "." ["foo", "a"] = "foo.a" := by decide
  have h2 : String.intercalate "." ["foo", "b"] = "foo.b" := by decide
  have hflat : flattenQuery
      (.vObj (.cons "a" (.vNum 1) (.cons "b" (.vNum 2) .nil))) ["foo"]
      = .cons "foo.b" (.vNum 2) .nil := by
    simp [flattenQuery, flattenLoop, isMongoOperator, hasDollarKey, keyStartsDollar,
      JSVal.truthy, h1, h2]
  have hq : buildQuery .nil
      { rest := .cons "foo"
          (.vObj (.cons "a" (.vNum 1) (.cons "b" (.vNum 2) .nil))) .nil }
      = .cons "foo.b" (.vNum 2) .nil := by
    simp [buildQuery, applyRest, hflat, JSObj.assign, JSObj.set, JSObj.has,
      JSObj.append, h1, h2]
  refine ⟨hq, ?_⟩
  rw [hq]
  decide

/-- C9: a remaining field filter whose scalar value is falsy contributes
no constraint at all — the built query is exactly the query built with
that filter entry removed (the key is silently dropped, so such a filter
can never select documents storing the falsy value). -/
theorem c9_falsy_filter_dropped (attributes : JSObj) (ids : List String)
    (keyword : String) (startAt endAt : Option Int) (key : String) (v : JSVal)
    (tl : JSObj) (hv : falsyScalar v = true) :
    buildQuery attributes ⟨ids, keyword, startAt, endAt, .cons key v tl⟩
      = buildQuery attributes ⟨ids, keyword, startAt, endAt, tl⟩ := by
  cases v <;> simp_all [falsyScalar, buildQuery, applyRest, JSObj.assign,
    flattenQuery, JSVal.truthy]

/-- C9 witness: filtering on `cat: null` builds the same query as not
filtering on `cat` at all. -/
theorem c9_witness :
    buildQuery .nil ⟨[], "", none, none, .cons "cat" .vNull .nil⟩
      = buildQuery .nil ⟨[], "", none, none, .nil⟩ :=
  c9_falsy_filter_dropped .nil [] "" none none "cat" .vNull .nil rfl

theorem atd_singleton_obj (k : String) (o : JSObj) (path : List String)
    (hk : k ≠ "readScopes") :
    attributesToDefinition (.vObj (.cons k (.vObj o) .nil)) path
      = Except.map (fun d => JSVal.vObj (.cons k d .nil))
          (attributesToDefinition (.vObj o) (path ++ [k])) := by
  have hist : isSchemaTypeVal (.vObj (.cons k (.vObj o) .nil)) = false := by
    by_cases hk2 : k = "type" <;>
      simp [isSchemaTypeVal, JSVal.getProp, JSObj.get, hk2, JSVal.truthy,
        JSVal.typeofStr]
  rw [attributesToDefinition, hist]
  cases h : attributesToDefinition (.vObj o) (path ++ [k]) with
  | error e => simp [attrFieldsLoop, hk, h, Except.map, bind, Except.bind]
  | ok v => simp [attrFieldsLoop, hk, h, Except.map, bind, Except.bind]

theorem atd_nest_error (p : List String) (inner : JSObj)
    (msg : List String → String)
    (hinner : ∀ path, attributesToDefinition (.vObj inner) path = .error (msg path))
    (hp : ∀ k ∈ p, k ≠ "readScopes") :
    ∀ path, attributesToDefinition (nestAttr p (.vObj inner)) path
      = .error (msg (path ++ p)) := by
  induction p with
  | nil => intro path; simpa [nestAttr] using hinner path
  | cons k tl ih =>
    intro path
    have hk : k ≠ "readScopes" := hp k (by simp)
    have htl : ∀ k' ∈ tl, k' ≠ "readScopes" := fun k' hk' => hp k' (by simp [hk'])
    obtain ⟨o, ho⟩ : ∃ o, nestAttr tl (.vObj inner) = .vObj o := by
      cases tl with
      | nil => exact ⟨inner, rfl⟩
      | cons k' tl' => exact ⟨_, rfl⟩
    rw [nestAttr, ho, atd_singleton_obj k o path hk, ← ho, ih htl (path ++ [k])]
    simp [Except.map]

theorem atd_descriptor_objectid_base (f : String) (path : List String)
    (hf : f ≠ "readScopes") :
    attributesToDefinition
        (.vObj (.cons f (.vObj (.cons "type" (.vStr "ObjectId") .nil)) .nil)) path
      = .error ("Ref must be passed for " ++ String.intercalate "." (path ++ [f])) := by
  rw [atd_singleton_obj f _ path hf]
  have hist : isSchemaTypeVal (.vObj (.cons "type" (.vStr "ObjectId") .nil)) = true := by
    simp [isSchemaTypeVal, JSVal.getProp, JSObj.get, JSVal.truthy, JSVal.typeofStr]
  rw [attributesToDefinition, hist]
  simp [attrFieldsLoop, schemaTypeEntry, getMongooseType, mongooseTypeNames,
    JSVal.getProp, JSObj.get, JSVal.truthy, Except.map, bind, Except.bind]

theorem atd_shorthand_objectid_base (f : String) (path : List String)
    (hf : f ≠ "readScopes") (href : f ≠ "ref") :
    attributesToDefinition (.vObj (.cons f (.vStr "ObjectId") .nil)) path
      = .error ("Ref must be passed for " ++ String.intercalate "." path) := by
  by_cases hf2 : f = "type"
  · subst hf2
    have hist : isSchemaTypeVal (.vObj (.cons "type" (.vStr "ObjectId") .nil)) = true := by
      simp [isSchemaTypeVal, JSVal.getProp, JSObj.get, JSVal.truthy, JSVal.typeofStr]
    rw [attributesToDefinition, hist]
    simp [attrFieldsLoop, schemaTypeEntry, getMongooseType, mongooseTypeNames,
      JSVal.getProp, JSObj.get, JSVal.truthy, Except.map, bind, Except.bind]
  · have hist : isSchemaTypeVal (.vObj (.cons f (.vStr "ObjectId") .nil)) = false := by
      simp [isSchemaTypeVal, JSVal.getProp, JSObj.get, hf2, JSVal.truthy,
        JSVal.typeofStr]
    rw [attributesToDefinition, hist]
    simp [attrFieldsLoop, hf, href, getMongooseType, mongooseTypeNames,
      JSVal.getProp, JSObj.get, JSVal.truthy, Except.map, bind, Except.bind]

/-- C5 (amended): compiling an attribute tree with a reference-typed node
lacking `ref` fails in both forms, but the two forms name different
paths: the descriptor form `{type: 'ObjectId'}` reports the field's full
dot-joined path, while the shorthand form `field: 'ObjectId'` reports
only the dot-joined path of the enclosing object, omitting the field's
own name (the empty path for a top-level shorthand field). -/
theorem c5_missing_ref_error (p : List String) (f : String)
    (hp : ∀ k ∈ p, k ≠ "readScopes") (hf : f ≠ "readScopes")
    (href : f ≠ "ref") :
    attributesToDefinition
        (nestAttr p (.vObj (.cons f (.vObj (.cons "type" (.vStr "ObjectId") .nil)) .nil))) []
      = .error ("Ref must be passed for " ++ String.intercalate "." (p ++ [f]))
    ∧ attributesToDefinition
        (nestAttr p (.vObj (.cons f (.vStr "ObjectId") .nil))) []
      = .error ("Ref must be passed for " ++ String.intercalate "." p) := by
  constructor
  · simpa using atd_nest_error p _
      (fun path => "Ref must be passed for " ++ String.intercalate "." (path ++ [f]))
      (fun path => atd_descriptor_objectid_base f path hf) hp []
  · simpa using atd_nest_error p _
      (fun path => "Ref must be passed for " ++ String.intercalate "." path)
      (fun path => atd_shorthand_objectid_base f path hf href) hp []

/-- C5 counterexample: the claim as stated fails for the shorthand form —
compiling `{foo: 'ObjectId'}` throws `Ref must be passed for ` with the
empty path: the message names neither `foo` nor any ancestor of it. -/
theorem c5_counterexample :
    attributesToDefinition (.vObj (.cons "foo" (.vStr "ObjectId") .nil)) []
      = .error "Ref must be passed for "
    ∧ ¬ List.IsInfix "foo".data "Ref must be passed for ".data := by
  constructor
  · rw [atd_shorthand_objectid_base "foo" [] (by decide) (by decide)]
    rw [show ("Ref must be passed for " ++ String.intercalate "." ([] : List String))
      = "Ref must be passed for " from by decide]
  · decide

/-- C5 witness: a reference field `product` nested under `shop` — the
descriptor form reports `shop.product`, the shorthand form reports only
`shop`. -/
theorem c5_witness :
    attributesToDefinition
        (nestAttr ["shop"]
          (.vObj (.cons "product" (.vObj (.cons "type" (.vStr "ObjectId") .nil)) .nil))) []
      = .error "Ref must be passed for shop.product"
    ∧ attributesToDefinition
        (nestAttr ["shop"] (.vObj (.cons "product" (.vStr "ObjectId") .nil))) []
      = .error "Ref must be passed for shop" := by
  have h := c5_missing_ref_error ["shop"] "product" (by decide) (by decide) (by decide)
  constructor
  · rw [h.1]
    rw [show ("Ref must be passed for " ++ String.intercalate "." (["shop"] ++ ["product"]))
      = "Ref must be passed for shop.product" from by decide]
  · rw [h.2]
    rw [show ("Ref must be passed for " ++ String.intercalate "." ["shop"])
      = "Ref must be passed for shop" from by decide]

theorem atd_shorthand_unknown_base (f t : String) (path : List String)
    (hf : f ≠ "readScopes") (ht : ¬ t ∈ mongooseTypeNames) :
    attributesToDefinition (.vObj (.cons f (.vStr t) .nil)) path
      = .error ("Type " ++ t ++ " could not be converted to Mongoose type.") := by
  by_cases hf2 : f = "type"
  · subst hf2
    by_cases hts : t = ""
    · subst hts
      have hist : isSchemaTypeVal (.vObj (.cons "type" (.vStr "") .nil)) = false := by
        simp [isSchemaTypeVal, JSVal.getProp, JSObj.get, JSVal.truthy]
      rw [attributesToDefinition, hist]
      simp [attrFieldsLoop, getMongooseType, ht, Except.map, bind, Except.bind]
    · have hist : isSchemaTypeVal (.vObj (.cons "type" (.vStr t) .nil)) = true := by
        simp [isSchemaTypeVal, JSVal.getProp, JSObj.get, JSVal.truthy,
          JSVal.typeofStr, hts]
      rw [attributesToDefinition, hist]
      simp [attrFieldsLoop, schemaTypeEntry, getMongooseType, ht, Except.map,
        bind, Except.bind]
  · have hist : isSchemaTypeVal (.vObj (.cons f (.vStr t) .nil)) = false := by
      simp [isSchemaTypeVal, JSVal.getProp, JSObj.get, hf2, JSVal.truthy,
        JSVal.typeofStr]
    rw [attributesToDefinition, hist]
    simp [attrFieldsLoop, hf, getMongooseType, ht, Except.map, bind, Except.bind]

theorem atd_descriptor_unknown_base (f t : String) (path : List String)
    (hf : f ≠ "readScopes") (ht : ¬ t ∈ mongooseTypeNames) :
    attributesToDefinition
        (.vObj (.cons f (.vObj (.cons "type" (.vStr t) .nil)) .nil)) path
      = .error ("Type " ++ t ++ " could not be converted to Mongoose type.") := by
  rw [atd_singleton_obj f _ path hf]
  rw [atd_shorthand_unknown_base "type" t (path ++ [f]) (by decide) ht]
  simp [Except.map]

/-- C6 (amended): compiling an attribute tree containing a leaf whose
declared type name does not resolve to a known primitive fails — in both
the shorthand and the descriptor form — with an error naming the
unresolvable type name; the error does not name the offending field. -/
theorem c6_unknown_type_error (p : List String) (f t : String)
    (hp : ∀ k ∈ p, k ≠ "readScopes") (hf : f ≠ "readScopes")
    (ht : ¬ t ∈ mongooseTypeNames) :
    attributesToDefinition (nestAttr p (.vObj (.cons f (.vStr t) .nil))) []
      = .error ("Type " ++ t ++ " could not be converted to Mongoose type.")
    ∧ attributesToDefinition
        (nestAttr p (.vObj (.cons f (.vObj (.cons "type" (.vStr t) .nil)) .nil))) []
      = .error ("Type " ++ t ++ " could not be converted to Mongoose type.") := by
  constructor
  · simpa using atd_nest_error p _
      (fun _ => "Type " ++ t ++ " could not be converted to Mongoose type.")
      (fun path => atd_shorthand_unknown_base f t path hf ht) hp []
  · simpa using atd_nest_error p _
      (fun _ => "Type " ++ t ++ " could not be converted to Mongoose type.")
      (fun path => atd_descriptor_unknown_base f t path hf ht) hp []

/-- C6 counterexample: the claim as stated fails — compiling
`{foo: 'Bogus'}` throws `Type Bogus could not be converted to Mongoose
type.`, a message naming the type, not the offending field `foo`. -/
theorem c6_counterexample :
    attributesToDefinition (.vObj (.cons "foo" (.vStr "Bogus") .nil)) []
      = .error "Type Bogus could not be converted to Mongoose type."
    ∧ ¬ List.IsInfix "foo".data
        "Type Bogus could not be converted to Mongoose type.".data := by
  constructor
  · rw [atd_shorthand_unknown_base "foo" "Bogus" [] (by decide) (by decide)]
    rw [show ("Type " ++ "Bogus" ++ " could not be converted to Mongoose type.")
      = "Type Bogus could not be converted to Mongoose type." from by decide]
  · decide

/-- C6 witness: the unknown type `Blob` nested at `a.b` fails with the
same field-free message in both forms. -/
theorem c6_witness :
    attributesToDefinition (nestAttr ["a"] (.vObj (.cons "b" (.vStr "Blob") .nil))) []
      = .error "Type Blob could not be converted to Mongoose type."
    ∧ attributesToDefinition
        (nestAttr ["a"] (.vObj (.cons "b" (.vObj (.cons "type" (.vStr "Blob") .nil)) .nil))) []
      = .error "Type Blob could not be converted to Mongoose type." := by
  have h := c6_unknown_type_error ["a"] "b" "Blob" (by decide) (by decide) (by decide)
  constructor
  · rw [h.1]
    rw [show ("Type " ++ "Blob" ++ " could not be converted to Mongoose type.")
      = "Type Blob could not be converted to Mongoose type." from by decide]
  · rw [h.2]
    rw [show ("Type " ++ "Blob" ++ " could not be converted to Mongoose type.")
      = "Type Blob could not be converted to Mongoose type." from by decide]

/-- C7 (amended): when the loader encounters a definition whose resolved
model name is already registered, it silently skips loading that
definition — the walk continues with the remaining files, no error is
raised, and the existing registration (first one wins) is untouched. -/
theorem c7_duplicate_model_skipped (basename : String)
    (definition : ModelDefinition) (rest : List (String × ModelDefinition))
    (models : List (String × JSVal))
    (h : (models.lookup (definition.modelName.getD (deriveModelName basename))).isSome
      = true) :
    loadModelDir ((basename, definition) :: rest) models = loadModelDir rest models := by
  cases hopt : models.lookup (definition.modelName.getD (deriveModelName basename)) with
  | none => rw [hopt] at h; simp at h
  | some m => rw [loadModelDir]; simp [hopt]

/-- C7 counterexample: the claim as stated fails — loading two
definition files that both register the model name `User` does not fail:
the duplicate is skipped and the registry holds the first definition's
compiled schema. -/
theorem c7_counterexample :
    loadModelDir
        [("user", ⟨some "User", .vObj (.cons "name" (.vStr "String") .nil)⟩),
          ("user2", ⟨some "User", .vObj (.cons "email" (.vStr "String") .nil)⟩)] []
      = .ok [("User", .vObj (.cons "name" (.vMType "String")
          (.cons "deletedAt" (.vObj (.cons "type" (.vMType "Date") .nil)) .nil)))] := by
  simp [loadModelDir, loadModel, createSchemaDefinition, attributesToDefinition,
    attrFieldsLoop, isSchemaTypeVal, schemaTypeEntry, getMongooseType,
    mongooseTypeNames, JSVal.getProp, JSObj.get, JSVal.truthy, JSVal.typeofStr,
    JSObj.set, JSObj.has, JSObj.append, JSObj.replace, deriveModelName,
    bind, Except.bind, Except.map, List.lookup]

/-- C7 witness: a duplicate of the already-registered `User` is skipped —
even though its definition lacks attributes and would fail to load — and
the registry is returned unchanged. -/
theorem c7_witness :
    loadModelDir [("user", ⟨some "User", .vUndefined⟩)] [("User", .vObj .nil)]
      = .ok [("User", .vObj .nil)] := by
  rw [c7_duplicate_model_skipped "user" ⟨some "User", .vUndefined⟩ []
    [("User", .vObj .nil)] (by decide)]
  rfl

/-- C8 (amended): derived read-only accessor fields (virtual getters)
are stripped from the create and update validation schemas (for any
caller-appended fields not reintroducing the name); the search
validation schema is instead derived from the raw attributes with only
reserved fields stripped — a getter is absent from it only because its
name is not an attribute key (or a search/appended field), not because
it is stripped. -/
theorem c8_getters_stripped (m : ModelSchema) (g : String)
    (append searchFields : List String) (hg : g ∈ getterNames m) :
    (g ∉ append → g ∉ createValidationFields m append)
    ∧ (g ∉ append → g ∉ updateValidationFields m append)
    ∧ (g ∉ m.attributes.keysList → g ∉ searchFields → g ∉ append →
        g ∉ searchValidationFields m searchFields append) := by
  refine ⟨?_, ?_, ?_⟩
  · intro ha hmem
    simp only [createValidationFields, getJoiSchemaFields, List.mem_append,
      List.mem_filter] at hmem
    rcases hmem with ⟨_, hnc⟩ | hap
    · exact absurd (List.mem_append_right RESERVED_FIELDS hg) (by simpa using hnc)
    · exact ha hap
  · intro ha hmem
    simp only [updateValidationFields, getJoiSchemaFields, List.mem_append,
      List.mem_filter] at hmem
    rcases hmem with ⟨_, hnc⟩ | hap
    · exact absurd (List.mem_append_right RESERVED_FIELDS hg) (by simpa using hnc)
    · exact ha hap
  · intro hattr hsf ha hmem
    simp only [searchValidationFields, getJoiSchemaFields, List.mem_append,
      List.mem_filter] at hmem
    rcases hmem with ⟨hk, _⟩ | (hsf2 | hap)
    · exact hattr hk
    · exact hsf hsf2
    · exact ha hap

/-- C8 counterexample: the claim as stated fails — on a model whose
schema carries a getter virtual named like the attribute `foo` (virtuals
are registered by per-model code, and `getSearchValidation` derives its
fields from the raw attributes stripping only the reserved fields), the
search validation schema still contains `foo`: the getter is not
stripped in search mode. -/
theorem c8_counterexample :
    "foo" ∈ getterNames ⟨.cons "foo" (.vStr "String") .nil, [("foo", 1)]⟩
    ∧ "foo" ∈ searchValidationFields
        ⟨.cons "foo" (.vStr "String") .nil, [("foo", 1)]⟩ [] [] := by
  decide

/-- C8 witness: on a model with attribute `name` and getter virtuals
`id` and `displayName`, the getter `displayName` appears in none of the
three derived validation field sets. -/
theorem c8_witness :
    "displayName" ∉ createValidationFields
        ⟨.cons "name" (.vStr "String") .nil, [("id", 1), ("displayName", 1)]⟩ []
    ∧ "displayName" ∉ updateValidationFields
        ⟨.cons "name" (.vStr "String") .nil, [("id", 1), ("displayName", 1)]⟩ []
    ∧ "displayName" ∉ searchValidationFields
        ⟨.cons "name" (.vStr "String") .nil, [("id", 1), ("displayName", 1)]⟩
        ["keyword"] [] := by
  have h := c8_getters_stripped
    ⟨.cons "name" (.vStr "String") .nil, [("id", 1), ("displayName", 1)]⟩
    "displayName" [] ["keyword"] (by decide)
  exact ⟨h.1 (by decide), h.2.1 (by decide),
    h.2.2 (by decide) (by decide) (by decide)⟩
